import Mathlib

/-!
Verification development for the py27-utils repository (path_utils.py,
image_utils.py, other_utils.py, encode_decode_utils.py).

Python strings are modelled as lists of characters (List Char); Python byte
strings as lists of naturals.  Filesystem state and third-party libraries
(chardet, xpinyin, natsort, PIL, the OS path functions) are modelled as
explicit oracle parameters, so every repository function becomes a pure,
executable Lean definition translated clause by clause from the source.
-/

namespace PyUtils

/-! ## path_utils.norm_path -/

/-- Python str.replace of the two-character pattern of two forward slashes by a
single forward slash: a single left-to-right non-overlapping scan, exactly as
in line 48 of path_utils.py. -/
def replaceDS : List Char → List Char
  | [] => []
  | [c] => [c]
  | a :: b :: rest =>
    if a = '/' ∧ b = '/' then '/' :: replaceDS rest
    else a :: replaceDS (b :: rest)

/-- Python str.replace of each backslash by a forward slash (line 49 of
path_utils.py); a one-character pattern, hence a plain map. -/
def replaceBS (l : List Char) : List Char :=
  l.map fun c => if c = '\\' then '/' else c

/-- Python str.startswith for a two-character pattern. -/
def startsWith2 (a b : Char) : List Char → Bool
  | x :: y :: _ => x == a && y == b
  | _ => false

/-- Python str.startswith for a one-character pattern. -/
def startsWith1 (a : Char) : List Char → Bool
  | x :: _ => x == a
  | _ => false

/-- Python str.endswith for a forward slash. -/
def endsSlash (l : List Char) : Bool :=
  match l.reverse with
  | c :: _ => c == '/'
  | [] => false

/-- Python str.endswith for the two-character pattern colon-slash. -/
def endsColonSlash (l : List Char) : Bool :=
  match l.reverse with
  | a :: b :: _ => a == '/' && b == ':'
  | _ => false

/-- Python str.rstrip with a forward slash: remove every trailing forward
slash. -/
def rstripSlash (l : List Char) : List Char :=
  (l.reverse.dropWhile fun c => c == '/').reverse

/-- Lines 51-52 of path_utils.py: strip trailing slashes unless the path ends
in colon-slash (a bare drive root). -/
def stripStage (l : List Char) : List Char :=
  if endsSlash l && !endsColonSlash l then rstripSlash l else l

/-- Lines 55-56 of path_utils.py: restore a single leading slash when the
input was UNC and the leading double slash was collapsed. -/
def uncRestore (unc : Bool) (l : List Char) : List Char :=
  if unc && !startsWith2 '/' '/' l && startsWith1 '/' l then '/' :: l else l

/-- path_utils.norm_path (lines 38-58): remember whether the input is UNC,
collapse doubled forward slashes in one pass, turn backslashes into forward
slashes, strip trailing slashes unless the path ends in colon-slash, and
restore a single leading slash when the UNC prefix was lost. -/
def norm_path (p : List Char) : List Char :=
  uncRestore (startsWith2 '/' '/' p || startsWith2 '\\' '\\' p)
    (stripStage (replaceBS (replaceDS p)))

example : norm_path "//server/share\\a\\b/".data = "//server/share/a/b".data := by decide
example : norm_path "a///b".data = "a//b".data := by decide
example : norm_path "a//b".data = "a/b".data := by decide
example : norm_path "C:/".data = "C:/".data := by decide
example : norm_path "".data = "".data := by decide
example : norm_path "//".data = "".data := by decide

/-- True when the list contains two adjacent forward slashes somewhere. -/
def hasDS : List Char → Bool
  | a :: b :: rest => (a == '/' && b == '/') || hasDS (b :: rest)
  | _ => false

theorem replaceDS_eq_self : ∀ l : List Char, hasDS l = false → replaceDS l = l
  | [], _ => rfl
  | [_], _ => rfl
  | a :: b :: rest, h => by
    simp only [hasDS, Bool.or_eq_false_iff, Bool.and_eq_false_iff,
      beq_eq_false_iff_ne] at h
    have hne : ¬(a = '/' ∧ b = '/') := by
      intro hab
      rcases h.1 with h1 | h1
      · exact h1 hab.1
      · exact h1 hab.2
    rw [replaceDS, if_neg hne, replaceDS_eq_self (b :: rest) h.2]

theorem replaceBS_eq_self : ∀ l : List Char, '\\' ∉ l → replaceBS l = l
  | [], _ => rfl
  | c :: cs, h => by
    simp only [List.mem_cons, not_or] at h
    have hc : c ≠ '\\' := fun hc => h.1 hc.symm
    have ih := replaceBS_eq_self cs h.2
    simp only [replaceBS, List.map_cons, if_neg hc] at ih ⊢
    rw [ih]

theorem bslash_not_mem_replaceBS (l : List Char) : '\\' ∉ replaceBS l := by
  intro hm
  unfold replaceBS at hm
  rw [List.mem_map] at hm
  obtain ⟨c, _, hc⟩ := hm
  by_cases h : c = '\\'
  · rw [if_pos h] at hc
    exact absurd hc (by decide)
  · rw [if_neg h] at hc
    exact h hc

theorem mem_rstripSlash (c : Char) (l : List Char) (h : c ∈ rstripSlash l) :
    c ∈ l := by
  unfold rstripSlash at h
  rw [List.mem_reverse] at h
  have hs := (List.dropWhile_sublist (l := l.reverse) (fun c => c == '/')).subset h
  exact List.mem_reverse.mp hs

theorem bslash_not_mem_norm_path (p : List Char) : '\\' ∉ norm_path p := by
  unfold norm_path
  have h1 : '\\' ∉ replaceBS (replaceDS p) := bslash_not_mem_replaceBS _
  have h2 : '\\' ∉ stripStage (replaceBS (replaceDS p)) := by
    unfold stripStage
    split
    · intro hm
      exact h1 (mem_rstripSlash _ _ hm)
    · exact h1
  unfold uncRestore
  split
  · intro hm
    rw [List.mem_cons] at hm
    rcases hm with hm | hm
    · exact absurd hm (by decide)
    · exact h2 hm
  · exact h2

theorem head_dropWhile_not (pr : Char → Bool) :
    ∀ l : List Char, ∀ c, (l.dropWhile pr).head? = some c → pr c = false := by
  intro l
  induction l with
  | nil => intro c h; simp [List.dropWhile] at h
  | cons a as ih =>
    intro c h
    rw [List.dropWhile_cons] at h
    by_cases hpa : pr a
    · rw [if_pos hpa] at h
      exact ih c h
    · rw [if_neg hpa] at h
      simp only [List.head?_cons, Option.some.injEq] at h
      subst h
      exact Bool.eq_false_iff.mpr hpa

theorem endsSlash_rstripSlash (l : List Char) :
    endsSlash (rstripSlash l) = false := by
  unfold endsSlash rstripSlash
  rw [List.reverse_reverse]
  rcases hd : l.reverse.dropWhile (fun c => c == '/') with _ | ⟨c, cs⟩
  · rfl
  · have hh : (l.reverse.dropWhile (fun c => c == '/')).head? = some c := by
      rw [hd]; rfl
    exact head_dropWhile_not _ _ _ hh

theorem stripStage_eq_rstrip (l : List Char)
    (h : (endsSlash l && !endsColonSlash l) = true) :
    stripStage l = rstripSlash l := by
  unfold stripStage
  rw [h]
  exact if_pos rfl

theorem stripStage_eq_self (l : List Char)
    (h : (endsSlash l && !endsColonSlash l) = false) :
    stripStage l = l := by
  unfold stripStage
  rw [h]
  exact if_neg Bool.false_ne_true

theorem uncRestore_eq_cons (u : Bool) (l : List Char)
    (h : (u && !startsWith2 '/' '/' l && startsWith1 '/' l) = true) :
    uncRestore u l = '/' :: l := by
  unfold uncRestore
  rw [h]
  exact if_pos rfl

theorem uncRestore_eq_self (u : Bool) (l : List Char)
    (h : (u && !startsWith2 '/' '/' l && startsWith1 '/' l) = false) :
    uncRestore u l = l := by
  unfold uncRestore
  rw [h]
  exact if_neg Bool.false_ne_true

theorem stripStage_trailing (l : List Char)
    (h : endsSlash (stripStage l) = true) :
    endsColonSlash (stripStage l) = true := by
  by_cases hc : (endsSlash l && !endsColonSlash l) = true
  · rw [stripStage_eq_rstrip l hc] at h
    rw [endsSlash_rstripSlash] at h
    exact absurd h Bool.false_ne_true
  · have hc' : (endsSlash l && !endsColonSlash l) = false := Bool.eq_false_iff.mpr hc
    rw [stripStage_eq_self l hc'] at h ⊢
    rcases Bool.and_eq_false_iff.mp hc' with h1 | h1
    · rw [h1] at h
      exact absurd h Bool.false_ne_true
    · simpa using h1

theorem endsSlash_cons (a : Char) (q : List Char) (hq : q ≠ []) :
    endsSlash (a :: q) = endsSlash q := by
  unfold endsSlash
  rw [List.reverse_cons]
  rcases hr : q.reverse with _ | ⟨c, cs⟩
  · exact absurd (by simpa using congrArg List.reverse hr) hq
  · rw [List.cons_append]

theorem endsColonSlash_cons (a : Char) (q : List Char) (hq : 2 ≤ q.length) :
    endsColonSlash (a :: q) = endsColonSlash q := by
  unfold endsColonSlash
  rw [List.reverse_cons]
  rcases hr : q.reverse with _ | ⟨c, cs⟩
  · have hq0 : q = [] := by simpa using congrArg List.reverse hr
    subst hq0
    exact absurd hq (by decide)
  · rcases cs with _ | ⟨d, ds⟩
    · have hl : q.length = 1 := by
        have := congrArg List.length hr
        simpa using this
      omega
    · rw [List.cons_append, List.cons_append]

theorem endsColonSlash_length (q : List Char) (h : endsColonSlash q = true) :
    2 ≤ q.length := by
  unfold endsColonSlash at h
  rcases hr : q.reverse with _ | ⟨c, cs⟩
  · rw [hr] at h
    exact absurd h Bool.false_ne_true
  · rcases cs with _ | ⟨d, ds⟩
    · rw [hr] at h
      exact absurd h Bool.false_ne_true
    · have := congrArg List.length hr
      rw [List.length_reverse] at this
      simp only [List.length_cons] at this
      omega

theorem norm_path_trailing (p : List Char)
    (h : endsSlash (norm_path p) = true) :
    endsColonSlash (norm_path p) = true := by
  unfold norm_path at h ⊢
  by_cases hg : ((startsWith2 '/' '/' p || startsWith2 '\\' '\\' p) &&
      !startsWith2 '/' '/' (stripStage (replaceBS (replaceDS p))) &&
      startsWith1 '/' (stripStage (replaceBS (replaceDS p)))) = true
  · rw [uncRestore_eq_cons _ _ hg] at h ⊢
    have hs1 : startsWith1 '/' (stripStage (replaceBS (replaceDS p))) = true :=
      (Bool.and_eq_true_iff.mp hg).2
    rcases hq : stripStage (replaceBS (replaceDS p)) with _ | ⟨x, m⟩
    · rw [hq] at hs1
      exact absurd hs1 Bool.false_ne_true
    · rw [hq] at h
      have hne : (x :: m : List Char) ≠ [] := by simp
      rw [endsSlash_cons _ _ hne] at h
      have h2 : endsColonSlash (x :: m) = true := by
        have h3 := stripStage_trailing (replaceBS (replaceDS p))
        rw [hq] at h3
        exact h3 h
      rw [endsColonSlash_cons _ _ (endsColonSlash_length _ h2)]
      exact h2
  · rw [uncRestore_eq_self _ _ (Bool.eq_false_iff.mpr hg)] at h ⊢
    exact stripStage_trailing _ h

theorem norm_path_fixed (q : List Char) (hB : '\\' ∉ q)
    (hT : endsSlash q = true → endsColonSlash q = true)
    (hD : hasDS (q.drop 1) = false) : norm_path q = q := by
  rcases q with _ | ⟨x, t⟩
  · decide
  · by_cases hss : startsWith2 '/' '/' (x :: t) = true
    · rcases t with _ | ⟨y, r⟩
      · exact absurd hss Bool.false_ne_true
      · have hxy : x = '/' ∧ y = '/' := by
          simpa only [startsWith2, Bool.and_eq_true, beq_iff_eq] using hss
        obtain ⟨hx, hy⟩ := hxy
        subst hx
        subst hy
        have hD' : hasDS ('/' :: r) = false := hD
        rcases r with _ | ⟨y2, r2⟩
        · have h1 : endsSlash ['/', '/'] = true := by decide
          exact absurd (hT h1) (by decide)
        · have hsplit : (y2 == '/') = false ∧ hasDS (y2 :: r2) = false := by
            simp only [hasDS, Bool.or_eq_false_iff, Bool.and_eq_false_iff] at hD'
            refine ⟨?_, hD'.2⟩
            rcases hD'.1 with h | h
            · exact absurd h (by decide)
            · exact h
          have hRDS : replaceDS ('/' :: '/' :: y2 :: r2) = '/' :: y2 :: r2 := by
            rw [replaceDS, if_pos ⟨rfl, rfl⟩, replaceDS_eq_self _ hsplit.2]
          have hBS : replaceBS ('/' :: y2 :: r2) = '/' :: y2 :: r2 := by
            apply replaceBS_eq_self
            intro hm
            exact hB (List.mem_cons_of_mem _ hm)
          have hcond : (endsSlash ('/' :: y2 :: r2) &&
              !endsColonSlash ('/' :: y2 :: r2)) = false := by
            by_cases hES : endsSlash ('/' :: y2 :: r2) = true
            · have hq1 : endsSlash ('/' :: '/' :: y2 :: r2) = true := by
                rw [endsSlash_cons _ _ (by simp)]
                exact hES
              have h2 := hT hq1
              have hlen : 2 ≤ ('/' :: y2 :: r2 : List Char).length := by
                simp only [List.length_cons]
                omega
              rw [endsColonSlash_cons _ _ hlen] at h2
              rw [hES, h2]
              rfl
            · rw [Bool.eq_false_iff.mpr hES]
              rfl
          unfold norm_path
          rw [hRDS, hBS, stripStage_eq_self _ hcond]
          apply uncRestore_eq_cons
          simp [startsWith2, startsWith1, hsplit.1]
    · have hss' : startsWith2 '/' '/' (x :: t) = false := Bool.eq_false_iff.mpr hss
      have hbs2 : startsWith2 '\\' '\\' (x :: t) = false := by
        rcases t with _ | ⟨y, t2⟩
        · rfl
        · simp only [startsWith2, Bool.and_eq_false_iff, beq_eq_false_iff_ne]
          left
          intro hx
          subst hx
          exact hB (List.mem_cons_self _ _)
      have hq : hasDS (x :: t) = false := by
        rcases t with _ | ⟨y, t2⟩
        · rfl
        · simp only [hasDS, Bool.or_eq_false_iff]
          exact ⟨hss', hD⟩
      have hRDS := replaceDS_eq_self _ hq
      have hBS := replaceBS_eq_self _ hB
      have hcond : (endsSlash (x :: t) && !endsColonSlash (x :: t)) = false := by
        by_cases hES : endsSlash (x :: t) = true
        · rw [hES, hT hES]
          rfl
        · rw [Bool.eq_false_iff.mpr hES]
          rfl
      unfold norm_path
      rw [hRDS, hBS, stripStage_eq_self _ hcond]
      apply uncRestore_eq_self
      rw [hss', hbs2]
      rfl

/-- C2: corrected form.  norm_path is idempotent on every input whose
normalized form keeps no doubled forward slash after its first character;
inputs that leave a residual doubled slash (for instance three forward
slashes in a row, or two adjacent backslashes in the middle of the path)
are exactly the ones the counterexample below exhibits. -/
theorem norm_path_idempotent_of_collapsed (p : List Char)
    (h : hasDS ((norm_path p).drop 1) = false) :
    norm_path (norm_path p) = norm_path p :=
  norm_path_fixed (norm_path p) (bslash_not_mem_norm_path p)
    (norm_path_trailing p) h

/-- C2: counterexample to the claim as stated.  The single-pass replacement
of doubled slashes turns three slashes into two, so one application of
norm_path is not a fixed point. -/
theorem norm_path_not_idempotent :
    ¬ (norm_path (norm_path "a///b".data) = norm_path "a///b".data) := by
  decide

/-- Witness for the corrected C2 theorem at a concrete Windows-style path. -/
theorem norm_path_idempotent_of_collapsed_witness :
    hasDS ((norm_path "C:\\Users\\x\\".data).drop 1) = false ∧
    norm_path (norm_path "C:\\Users\\x\\".data) = norm_path "C:\\Users\\x\\".data :=
  ⟨by decide, norm_path_idempotent_of_collapsed _ (by decide)⟩

/-! ## image_utils: classification, renaming, size reduction, counting -/

/-- Python str.lower, characterwise. -/
def pyLower (l : List Char) : List Char :=
  l.map Char.toLower

/-- The eight recognized image extensions of image_utils.py (lines 42, 98,
110, 138). -/
def imageExts : List (List Char) :=
  [".png".data, ".jpg".data, ".jpeg".data, ".tif".data, ".tiff".data,
   ".tga".data, ".bmp".data, ".dds".data]

/-- The classification test used by every image_utils function: the
lower-cased file name ends with one of the eight recognized extensions
(Python str.endswith on a tuple). -/
def isImageName (f : List Char) : Bool :=
  imageExts.any fun e => e.isSuffixOf (pyLower f)

/-- Decimal digits of a natural number, as Python str of an int. -/
def natStr (n : Nat) : List Char :=
  (Nat.repr n).data

/-- Python percent-formatting with 04d: zero-pad the decimal form to at
least four characters. -/
def pad4 (n : Nat) : List Char :=
  if (natStr n).length < 4 then
    List.replicate (4 - (natStr n).length) '0' ++ natStr n
  else natStr n

/-- Python os.path.splitext restricted to bare entry names (no separators):
split at the last dot that is not part of a run of leading dots. -/
def splitext (f : List Char) : List Char × List Char :=
  let k := (f.takeWhile fun c => c == '.').length
  let idxs := (List.range f.length).filter fun i =>
    decide (k ≤ i) && (f.getD i ' ' == '.')
  match idxs.getLast? with
  | some i => (f.take i, f.drop i)
  | none => (f, [])

/-- The join of Python ntpath for a directory and a bare relative entry
name, as performed by the os.path.join calls of image_utils.py on
Windows. -/
def joinW (d f : List Char) : List Char :=
  match d.getLast? with
  | none => f
  | some c => if c == '/' || c == '\\' || c == ':' then d ++ f else d ++ '\\' :: f

/-- Python backslash-n join of a list of strings. -/
def joinNL : List (List Char) → List Char
  | [] => []
  | [x] => x
  | x :: y :: rest => x ++ '\n' :: joinNL (y :: rest)

/-- Kind of a directory entry; the repository never inspects it, which is
what claim C10 is about. -/
inductive EntryKind
  | file
  | dir
deriving DecidableEq

/-- One iteration of the counting loop of image_utils.image_count (lines
137-142): bump the counter on an image-classified name and remember the
normalized joined path of the first one. -/
def imageCountStep (folder : List Char) (acc : Nat × List Char)
    (e : List Char × EntryKind) : Nat × List Char :=
  if isImageName e.1 then
    (acc.1 + 1, if acc.2 = [] then norm_path (joinW folder e.1) else acc.2)
  else acc

/-- image_utils.image_count (lines 120-143).  The folder listing is passed
in already naturally sorted (natsort is a third-party boundary, section 6 of
the spec); folderExists models os.path.exists.  Returns the number of
image-classified entries and the normalized joined path of the first one. -/
def image_count (folderExists : Bool) (folder : List Char)
    (entries : List (List Char × EntryKind)) : Nat × List Char :=
  if folderExists = false ∨ folder = [] then (0, [])
  else entries.foldl (imageCountStep folder) (0, [])

/-- The loop of image_utils.rename_images_to_format (lines 39-55), with the
outcome of each os.rename given by the oracle fails (none = success, some e
= the exception text) and os.remove recorded for non-image entries when
deleteNonImg holds.  Returns (successful renames, attempted deletions,
collected exception messages).  The index is incremented for every
image-classified entry, before the rename is attempted, exactly as in the
source. -/
def renameLoop (fails : List Char → Option (List Char)) (deleteNonImg : Bool)
    (suffix : List Char) :
    List (List Char) → Nat →
      List (List Char × List Char) × List (List Char) × List (List Char)
  | [], _ => ([], [], [])
  | f :: rest, idx =>
    if isImageName f then
      let newName := suffix ++ '.' :: (pad4 idx ++ (splitext f).2)
      match fails f with
      | some e =>
        let res := renameLoop fails deleteNonImg suffix rest (idx + 1)
        (res.1, res.2.1, (f ++ ": ".data ++ e) :: res.2.2)
      | none =>
        let res := renameLoop fails deleteNonImg suffix rest (idx + 1)
        ((f, newName) :: res.1, res.2.1, res.2.2)
    else
      let res := renameLoop fails deleteNonImg suffix rest idx
      if deleteNonImg then (res.1, f :: res.2.1, res.2.2) else res

/-- Modelled from the wording of claim C3, not from the source: the same
loop except that a failing rename does not consume an index, so the index
increments only for successfully processed image entries.  Used to exhibit
the counterexample. -/
def renameLoopClaim (fails : List Char → Option (List Char))
    (deleteNonImg : Bool) (suffix : List Char) :
    List (List Char) → Nat →
      List (List Char × List Char) × List (List Char) × List (List Char)
  | [], _ => ([], [], [])
  | f :: rest, idx =>
    if isImageName f then
      let newName := suffix ++ '.' :: (pad4 idx ++ (splitext f).2)
      match fails f with
      | some e =>
        let res := renameLoopClaim fails deleteNonImg suffix rest idx
        (res.1, res.2.1, (f ++ ": ".data ++ e) :: res.2.2)
      | none =>
        let res := renameLoopClaim fails deleteNonImg suffix rest (idx + 1)
        ((f, newName) :: res.1, res.2.1, res.2.2)
    else
      let res := renameLoopClaim fails deleteNonImg suffix rest idx
      if deleteNonImg then (res.1, f :: res.2.1, res.2.2) else res

/-- image_utils.rename_images_to_format (lines 23-58): guard on a missing
folder, run the loop on the sorted listing, and raise one aggregated error
if any rename failed. -/
def rename_images_to_format (folderExists : Bool)
    (fails : List Char → Option (List Char)) (deleteNonImg : Bool)
    (folder suffix : List Char) (listing : List (List Char)) :
    Except (List Char) (List (List Char × List Char) × List (List Char)) :=
  if folderExists = false ∨ folder = [] then .ok ([], [])
  else
    let res := renameLoop fails deleteNonImg suffix listing 0
    if res.2.2 = [] then .ok (res.1, res.2.1)
    else .error ("Error while Renaming files: \n".data ++ joinNL res.2.2)

example : pad4 1 = "0001".data := by decide
example : pad4 12345 = "12345".data := by decide
example : splitext "a.png".data = ("a".data, ".png".data) := by decide
example : splitext ".png".data = (".png".data, "".data) := by decide
example : splitext "a..b".data = ("a.".data, ".b".data) := by decide
example : isImageName "X.JpG".data = true := by decide
example : isImageName "x.txt".data = false := by decide
example : isImageName "folder.png".data = true := by decide

theorem renameLoop_renames (fails : List Char → Option (List Char))
    (del : Bool) (suffix : List Char) :
    ∀ (files : List (List Char)) (idx : Nat),
      (renameLoop fails del suffix files idx).1 =
        (List.enumFrom idx (files.filter fun f => isImageName f)).filterMap
          (fun p => match fails p.2 with
            | none => some (p.2, suffix ++ '.' :: (pad4 p.1 ++ (splitext p.2).2))
            | some _ => none) := by
  intro files
  induction files with
  | nil => intro idx; rfl
  | cons f rest ih =>
    intro idx
    by_cases hf : isImageName f = true
    · cases hfl : fails f with
      | none =>
        simp [renameLoop, hf, hfl, List.filter_cons, List.enumFrom, ih (idx + 1)]
      | some e =>
        simp [renameLoop, hf, hfl, List.filter_cons, List.enumFrom, ih (idx + 1)]
    · have hf' : isImageName f = false := Bool.eq_false_iff.mpr hf
      cases del <;>
        simp [renameLoop, hf', List.filter_cons, ih idx]

theorem renameLoop_errors (fails : List Char → Option (List Char))
    (del : Bool) (suffix : List Char) :
    ∀ (files : List (List Char)) (idx : Nat),
      (renameLoop fails del suffix files idx).2.2 =
        (files.filter fun f => isImageName f).filterMap
          (fun f => (fails f).map fun e => f ++ ": ".data ++ e) := by
  intro files
  induction files with
  | nil => intro idx; rfl
  | cons f rest ih =>
    intro idx
    by_cases hf : isImageName f = true
    · cases hfl : fails f with
      | none =>
        simp [renameLoop, hf, hfl, List.filter_cons, ih (idx + 1)]
      | some e =>
        simp [renameLoop, hf, hfl, List.filter_cons, ih (idx + 1)]
    · have hf' : isImageName f = false := Bool.eq_false_iff.mpr hf
      cases del <;>
        simp [renameLoop, hf', List.filter_cons, ih idx]

/-- Concrete rename-failure oracle for the C3 counterexample: renaming
a.png raises, every other rename succeeds. -/
def c3fails : List Char → Option (List Char) :=
  fun f => if f = "a.png".data then some "boom".data else none

/-- C3: counterexample to the claim as stated.  In a folder listed as
a.png, b.png where the rename of a.png fails, the source gives b.png the
sequence index 1 (the failed entry consumed index 0), while the claimed
rule (index increments only for successfully processed entries) would give
b.png index 0. -/
theorem rename_index_claim_cex :
    (renameLoop c3fails false "s".data ["a.png".data, "b.png".data] 0).1
      = [("b.png".data, "s.0001.png".data)] ∧
    (renameLoopClaim c3fails false "s".data ["a.png".data, "b.png".data] 0).1
      = [("b.png".data, "s.0000.png".data)] := by
  exact ⟨by decide, by decide⟩

/-- C3: amended.  In rename_images_to_format the j-th image-classified
entry of the sorted listing (0-based, counting every image entry whether or
not its rename succeeds) is given the new name suffix dot pad4 j dot ext;
the successfully renamed pairs are exactly the image entries whose rename
does not fail, and the collected error lines are exactly the failing image
entries, each as name colon message. -/
theorem rename_index_counts_all_images
    (fails : List Char → Option (List Char)) (deleteNonImg : Bool)
    (suffix : List Char) (files : List (List Char)) :
    (renameLoop fails deleteNonImg suffix files 0).1 =
      (List.enumFrom 0 (files.filter fun f => isImageName f)).filterMap
        (fun p => match fails p.2 with
          | none => some (p.2, suffix ++ '.' :: (pad4 p.1 ++ (splitext p.2).2))
          | some _ => none) ∧
    (renameLoop fails deleteNonImg suffix files 0).2.2 =
      (files.filter fun f => isImageName f).filterMap
        (fun f => (fails f).map fun e => f ++ ": ".data ++ e) :=
  ⟨renameLoop_renames fails deleteNonImg suffix files 0,
   renameLoop_errors fails deleteNonImg suffix files 0⟩

theorem foldl_imageCountStep_names (folder : List Char) :
    ∀ (es es' : List (List Char × EntryKind)),
      es.map Prod.fst = es'.map Prod.fst →
      ∀ acc : Nat × List Char,
        es.foldl (imageCountStep folder) acc = es'.foldl (imageCountStep folder) acc := by
  intro es
  induction es with
  | nil =>
    intro es' h acc
    have : es' = [] := by
      cases es' with
      | nil => rfl
      | cons e t => exact absurd h (by simp)
    subst this
    rfl
  | cons e t ih =>
    intro es' h acc
    cases es' with
    | nil => exact absurd h (by simp)
    | cons e' t' =>
      simp only [List.map_cons, List.cons.injEq] at h
      simp only [List.foldl_cons]
      have hstep : imageCountStep folder acc e = imageCountStep folder acc e' := by
        unfold imageCountStep
        rw [h.1]
      rw [hstep]
      exact ih t' h.2 _

theorem foldl_imageCountStep_count (folder : List Char) :
    ∀ (es : List (List Char × EntryKind)) (acc : Nat × List Char),
      (es.foldl (imageCountStep folder) acc).1 =
        acc.1 + es.countP (fun e => isImageName e.1) := by
  intro es
  induction es with
  | nil => intro acc; simp
  | cons e t ih =>
    intro acc
    simp only [List.foldl_cons, List.countP_cons]
    rw [ih]
    unfold imageCountStep
    by_cases he : isImageName e.1 = true
    · rw [if_pos he, he]
      simp
      omega
    · rw [if_neg he, Bool.eq_false_iff.mpr he]
      simp

theorem mapfst_filterMap_enumFrom (fails : List Char → Option (List Char))
    (g : Nat → List Char → List Char) :
    ∀ (l : List (List Char)) (n : Nat),
      ((List.enumFrom n l).filterMap (fun p => match fails p.2 with
        | none => some (p.2, g p.1 p.2)
        | some _ => none)).map Prod.fst =
      l.filter (fun f => fails f == none) := by
  intro l
  induction l with
  | nil => intro n; rfl
  | cons f t ih =>
    intro n
    cases hfl : fails f with
    | none =>
      simp [List.enumFrom, List.filterMap_cons, hfl, List.filter_cons, ih (n + 1)]
    | some e =>
      simp [List.enumFrom, List.filterMap_cons, hfl, List.filter_cons, ih (n + 1)]

theorem length_filterMap_failures (fails : List Char → Option (List Char))
    (g : List Char → List Char → List Char) :
    ∀ l : List (List Char),
      (l.filterMap (fun f => (fails f).map (g f))).length =
        l.countP (fun f => (fails f).isSome) := by
  intro l
  induction l with
  | nil => rfl
  | cons f t ih =>
    cases hfl : fails f with
    | none => simp [List.filterMap_cons, hfl, List.countP_cons, ih]
    | some e => simp [List.filterMap_cons, hfl, List.countP_cons, ih]

/-- C10: image classification everywhere in image_utils is the
case-insensitive suffix test isImageName on the entry name alone.
image_count gives the same result on two listings with the same names no
matter what kind (file or subdirectory) each entry has; its count is
exactly the number of entries passing the suffix test; the entries the
rename loop renames are exactly the suffix-passing names whose rename
succeeds, and the entries it records errors for are exactly the
suffix-passing names whose rename fails, so no entry lacking such a suffix
is ever counted, renamed, or errored. -/
theorem image_classification_by_suffix_only
    (folder : List Char) (entries entries' : List (List Char × EntryKind))
    (fe : Bool) :
    (entries.map Prod.fst = entries'.map Prod.fst →
      image_count fe folder entries = image_count fe folder entries') ∧
    (fe = true → folder ≠ [] →
      (image_count fe folder entries).1 =
        entries.countP (fun e => isImageName e.1)) ∧
    (∀ (fails : List Char → Option (List Char)) (del : Bool)
        (suffix : List Char),
      ((renameLoop fails del suffix (entries.map Prod.fst) 0).1.map Prod.fst =
        ((entries.map Prod.fst).filter fun f => isImageName f).filter
          (fun f => fails f == none)) ∧
      (renameLoop fails del suffix (entries.map Prod.fst) 0).2.2.length =
        ((entries.map Prod.fst).filter fun f => isImageName f).countP
          (fun f => (fails f).isSome)) := by
  refine ⟨?_, ?_, ?_⟩
  · intro h
    unfold image_count
    split
    · rfl
    · exact foldl_imageCountStep_names folder entries entries' h _
  · intro hfe hfolder
    unfold image_count
    rw [if_neg (by simp [hfe, hfolder])]
    rw [foldl_imageCountStep_count]
    simp
  · intro fails del suffix
    constructor
    · rw [renameLoop_renames fails del suffix _ 0]
      exact mapfst_filterMap_enumFrom fails
        (fun i f => suffix ++ '.' :: (pad4 i ++ (splitext f).2)) _ 0
    · rw [renameLoop_errors fails del suffix _ 0]
      exact length_filterMap_failures fails (fun f e => f ++ ": ".data ++ e) _

/-- Witness for C10 at a concrete listing: a subdirectory named a.png is
counted exactly like a file named a.png, and the count is one there. -/
theorem image_classification_by_suffix_only_witness :
    image_count true "d".data
        [("a.png".data, EntryKind.dir), ("b.txt".data, EntryKind.file)] =
      image_count true "d".data
        [("a.png".data, EntryKind.file), ("b.txt".data, EntryKind.dir)] ∧
    (image_count true "d".data
        [("a.png".data, EntryKind.dir), ("b.txt".data, EntryKind.file)]).1 = 1 := by
  have h := image_classification_by_suffix_only "d".data
    [("a.png".data, EntryKind.dir), ("b.txt".data, EntryKind.file)]
    [("a.png".data, EntryKind.file), ("b.txt".data, EntryKind.dir)] true
  refine ⟨h.1 (by decide), (h.2.1 rfl (by decide)).trans (by decide)⟩

/-- image_utils.try_reduce_image_size, directory branch (lines 92-106 and
the final return of line 117).  The entries are the listdir names with
their byte sizes; a name qualifies when it passes the image-suffix test and
its whole-megabyte size (Python 2 integer division by 1024 squared) is at
or above the threshold.  The call at line 105 passes only two of the three
required positional arguments of other_utils.multi_thread_run, so when any
image qualifies Python raises a TypeError before any job runs; that arity
failure is modelled as the error result. -/
def try_reduce_image_size_dir (folder : List Char)
    (entries : List (List Char × Nat)) (sizeThreshold : Nat) :
    Except (List Char) Bool :=
  let imgArgs := entries.filterMap fun e =>
    if isImageName e.1 && decide (sizeThreshold ≤ e.2 / 1048576) then
      some (joinW folder e.1)
    else none
  if imgArgs.isEmpty then .ok false
  else .error "TypeError: multi_thread_run() takes exactly 3 arguments (2 given)".data

/-- C1: evaluation of the code at the failing input.  A directory listing
holding a.jpg of five megabytes with threshold one has a qualifying image,
so the claim expects a concurrent reduction pass and a true return; the
source instead reaches the two-argument call of the three-argument
multi_thread_run and dies with a TypeError, returning no boolean at all.
When nothing qualifies the branch does return false and raises nothing. -/
theorem try_reduce_dir_arity_bug :
    try_reduce_image_size_dir "d".data [("a.jpg".data, 5 * 1048576)] 1 =
      Except.error
        "TypeError: multi_thread_run() takes exactly 3 arguments (2 given)".data ∧
    (∀ b : Bool,
      try_reduce_image_size_dir "d".data [("a.jpg".data, 5 * 1048576)] 1 ≠
        Except.ok b) ∧
    try_reduce_image_size_dir "d".data [("a.jpg".data, 5 * 1048576)] 100 =
      Except.ok false := by
  refine ⟨rfl, ?_, rfl⟩
  intro b h
  have h1 : try_reduce_image_size_dir "d".data [("a.jpg".data, 5 * 1048576)] 1 =
      Except.error
        "TypeError: multi_thread_run() takes exactly 3 arguments (2 given)".data := rfl
  rw [h1] at h
  exact Except.noConfusion h

/-! ## other_utils.multi_thread_run -/

/-- The per-job failure traces collected by the workers of
other_utils.multi_thread_run (lines 37-45), in queue order: the oracle run
gives each job outcome, and its error value stands for the formatted
traceback text appended to the shared exception list. -/
def jobTraces {α : Type} (run : α → Except (List Char) Unit)
    (argsList : List α) : List (List Char) :=
  argsList.filterMap fun a =>
    match run a with
    | .error e => some e
    | .ok _ => none

/-- other_utils.multi_thread_run (lines 24-58): return on an empty job
list, otherwise enqueue every argument tuple, let the workers drain the
queue (catching each failure as trace text), block on the join, and raise
one aggregated Exception joining the traces with newlines iff any were
collected.  The model serializes the drain in queue order; threadLimit
only sets the amount of parallelism (the source docstring requires it
positive) and does not change which jobs run. -/
def multi_thread_run {α : Type} (run : α → Except (List Char) Unit)
    (threadLimit : Nat) (argsList : List α) : Except (List Char) Unit :=
  if argsList.isEmpty then .ok ()
  else
    let errs := jobTraces run argsList
    if errs.isEmpty then .ok () else .error (joinNL errs)

theorem jobTraces_eq_nil_iff {α : Type} (run : α → Except (List Char) Unit)
    (l : List α) :
    jobTraces run l = [] ↔ ∀ a ∈ l, run a = .ok () := by
  unfold jobTraces
  rw [List.filterMap_eq_nil_iff]
  constructor
  · intro h a ha
    have hm := h a ha
    cases hr : run a with
    | ok u => cases u; rfl
    | error e => rw [hr] at hm; exact absurd hm (by simp)
  · intro h a ha
    rw [h a ha]

/-- C6: multi_thread_run is a no-op on an empty job list; it succeeds iff
every job succeeds (every job is attempted, failures do not stop the
rest); any raised error is the single aggregated one joining all captured
traces with newlines; and as soon as one job fails that aggregated error
is raised. -/
theorem multi_thread_run_aggregates {α : Type}
    (run : α → Except (List Char) Unit) (threadLimit : Nat)
    (argsList : List α) (h : 0 < threadLimit) :
    (argsList = [] → multi_thread_run run threadLimit argsList = .ok ()) ∧
    (multi_thread_run run threadLimit argsList = .ok () ↔
      ∀ a ∈ argsList, run a = .ok ()) ∧
    (∀ e, multi_thread_run run threadLimit argsList = .error e →
      e = joinNL (jobTraces run argsList)) ∧
    ((∃ a ∈ argsList, ¬ run a = .ok ()) →
      multi_thread_run run threadLimit argsList =
        .error (joinNL (jobTraces run argsList))) := by
  refine ⟨?_, ?_, ?_, ?_⟩
  · intro h0
    subst h0
    rfl
  · unfold multi_thread_run
    by_cases hempty : argsList.isEmpty = true
    · rw [if_pos hempty]
      have h0 : argsList = [] := List.isEmpty_iff.mp hempty
      subst h0
      simp
    · rw [if_neg hempty]
      by_cases htr : (jobTraces run argsList).isEmpty = true
      · rw [if_pos htr]
        have hall := (jobTraces_eq_nil_iff run argsList).mp (List.isEmpty_iff.mp htr)
        exact iff_of_true rfl hall
      · rw [if_neg htr]
        have hne : ¬ (jobTraces run argsList = []) := by
          intro h0
          exact htr (by rw [h0]; rfl)
        constructor
        · intro h0
          exact absurd h0 (by simp)
        · intro hall
          exact absurd ((jobTraces_eq_nil_iff run argsList).mpr hall) hne
  · intro e he
    unfold multi_thread_run at he
    by_cases hempty : argsList.isEmpty = true
    · rw [if_pos hempty] at he
      exact absurd he (by simp)
    · rw [if_neg hempty] at he
      by_cases htr : (jobTraces run argsList).isEmpty = true
      · rw [if_pos htr] at he
        exact absurd he (by simp)
      · rw [if_neg htr] at he
        exact (Except.error.injEq _ _).mp he.symm
  · intro hex
    obtain ⟨a, ha, hfail⟩ := hex
    have hempty : ¬ (argsList.isEmpty = true) := by
      intro h0
      rw [List.isEmpty_iff.mp h0] at ha
      exact absurd ha (by simp)
    have htr : ¬ ((jobTraces run argsList).isEmpty = true) := by
      intro h0
      exact hfail ((jobTraces_eq_nil_iff run argsList).mp
        (List.isEmpty_iff.mp h0) a ha)
    unfold multi_thread_run
    rw [if_neg hempty, if_neg htr]

/-- Concrete job oracle for the C6 witness: of ten jobs, only job five
fails. -/
def c6run : Nat → Except (List Char) Unit :=
  fun n => if n == 5 then .error "IndexError: job five failed".data else .ok ()

/-- Witness for C6: four worker threads over ten jobs where job five
fails raise exactly the aggregated error holding that single trace. -/
theorem multi_thread_run_aggregates_witness :
    multi_thread_run c6run 4 [0, 1, 2, 3, 4, 5, 6, 7, 8, 9] =
      Except.error "IndexError: job five failed".data := by
  have h := multi_thread_run_aggregates c6run 4 [0, 1, 2, 3, 4, 5, 6, 7, 8, 9]
    (by decide)
  have h5 : ¬ c6run 5 = Except.ok () := fun hc => Except.noConfusion hc
  exact (h.2.2.2 ⟨5, by decide, h5⟩).trans rfl

/-! ## encode_decode_utils -/

/-- Python str.split on a dash: every dash separates, empty pieces kept. -/
def splitDash : List Char → List (List Char)
  | [] => [[]]
  | c :: rest =>
    match splitDash rest with
    | [] => [[]]
    | h :: t => if c = '-' then [] :: h :: t else (c :: h) :: t

/-- Python str.islower restricted to ASCII-cased characters: at least one
cased character and no upper-case one. -/
def pyIslower (s : List Char) : Bool :=
  (s.any fun c => c.isLower || c.isUpper) && (s.all fun c => !c.isUpper)

/-- Python str.capitalize: first character upper-cased, the rest
lower-cased. -/
def pyCapitalize : List Char → List Char
  | [] => []
  | c :: rest => c.toUpper :: rest.map Char.toLower

/-- encode_decode_utils.chinese_to_pinyin (lines 73-86).  The xpinyin
transliteration (third-party boundary) is the oracle getPinyin, returning
the dash-separated syllable string; the function splits it on dashes,
capitalizes each fully-lower-case syllable, and joins with no separator. -/
def chinese_to_pinyin (getPinyin : List Char → List Char)
    (nameCN : List Char) : List Char :=
  if nameCN = [] then []
  else
    ((splitDash (getPinyin nameCN)).map fun syl =>
      if pyIslower syl then pyCapitalize syl else syl).flatten

/-- C7: empty input gives empty output; under the documented
transliteration of the example (bai-yan-wu), the example input maps to
BaiYanWu; and on any non-empty input the result is the concatenation of
the dash-separated syllables, each title-cased exactly when fully
lower-case and untouched otherwise. -/
theorem chinese_to_pinyin_spec (getPinyin : List Char → List Char) :
    chinese_to_pinyin getPinyin [] = [] ∧
    (getPinyin "白烟雾".data = "bai-yan-wu".data →
      chinese_to_pinyin getPinyin "白烟雾".data = "BaiYanWu".data) ∧
    (∀ name, name ≠ [] →
      chinese_to_pinyin getPinyin name =
        ((splitDash (getPinyin name)).map fun syl =>
          if pyIslower syl then pyCapitalize syl else syl).flatten) := by
  refine ⟨rfl, ?_, ?_⟩
  · intro hg
    unfold chinese_to_pinyin
    rw [if_neg (by decide), hg]
    decide
  · intro name hn
    unfold chinese_to_pinyin
    rw [if_neg hn]

/-- Concrete transliteration oracle for the C7 witness. -/
def c7pinyin : List Char → List Char :=
  fun s => if s = "白烟雾".data then "bai-yan-wu".data else []

/-- Witness for C7 at the example of the spec. -/
theorem chinese_to_pinyin_spec_witness :
    chinese_to_pinyin c7pinyin "白烟雾".data = "BaiYanWu".data :=
  (chinese_to_pinyin_spec c7pinyin).2.1 rfl

/-- A Python 2 text value: either an already-decoded unicode object or a
raw byte string. -/
inductive PyText
  | uni (s : List Char)
  | bytes (b : List Nat)

/-- The fallback loop of encode_decode_utils.detect_encoding (lines
41-48): try utf-8, then gbk, then big5, returning the first whose decode
succeeds (oracle decodeOK), or empty when none does. -/
def detect_fallback (decodeOK : List Char → List Nat → Bool)
    (b : List Nat) : List Char :=
  match ["utf-8".data, "gbk".data, "big5".data].find? (fun e => decodeOK e b) with
  | some e => e
  | none => []

/-- encode_decode_utils.detect_encoding (lines 24-48): an already-decoded
value is reported as unicode; otherwise the statistical guesser (oracle
chardet, third-party boundary) is consulted and a non-empty guess is
lower-cased and returned; otherwise fall back to the decode attempts. -/
def detect_encoding (chardet : List Nat → Option (List Char))
    (decodeOK : List Char → List Nat → Bool) : PyText → List Char
  | .uni _ => "unicode".data
  | .bytes b =>
    match chardet b with
    | some e => if e ≠ [] then pyLower e else detect_fallback decodeOK b
    | none => detect_fallback decodeOK b

theorem detect_fallback_eq_ifs (decodeOK : List Char → List Nat → Bool)
    (b : List Nat) :
    detect_fallback decodeOK b =
      (if decodeOK "utf-8".data b then "utf-8".data
       else if decodeOK "gbk".data b then "gbk".data
       else if decodeOK "big5".data b then "big5".data
       else []) := by
  unfold detect_fallback
  cases h1 : decodeOK "utf-8".data b with
  | true => simp [List.find?, h1]
  | false =>
    cases h2 : decodeOK "gbk".data b with
    | true => simp [List.find?, h1, h2]
    | false =>
      cases h3 : decodeOK "big5".data b with
      | true => simp [List.find?, h1, h2, h3]
      | false => simp [List.find?, h1, h2, h3]

/-- C8: detect_encoding reports unicode for every already-decoded text
value whatever its content; and on byte input, whenever the statistical
guesser yields nothing (no answer or an empty one), it returns the first
of utf-8, gbk, big5 whose decode succeeds, in that order, and the empty
string when all three fail. -/
theorem detect_encoding_spec (chardet : List Nat → Option (List Char))
    (decodeOK : List Char → List Nat → Bool) :
    (∀ s, detect_encoding chardet decodeOK (.uni s) = "unicode".data) ∧
    (∀ b, (chardet b = none ∨ chardet b = some []) →
      detect_encoding chardet decodeOK (.bytes b) =
        (if decodeOK "utf-8".data b then "utf-8".data
         else if decodeOK "gbk".data b then "gbk".data
         else if decodeOK "big5".data b then "big5".data
         else [])) := by
  constructor
  · intro s
    rfl
  · intro b hb
    rw [← detect_fallback_eq_ifs]
    rcases hb with hb | hb <;>
      simp [detect_encoding, hb]

/-- Guesser oracle for the C8 witness: no statistical answer. -/
def c8chardet : List Nat → Option (List Char) :=
  fun _ => none

/-- Decode oracle for the C8 witness: only the gbk decode succeeds. -/
def c8decodeOK : List Char → List Nat → Bool :=
  fun e _ => e == "gbk".data

/-- Witness for C8: with a silent guesser and bytes only gbk can decode,
detect_encoding returns gbk (utf-8 was tried first and failed). -/
theorem detect_encoding_spec_witness :
    detect_encoding c8chardet c8decodeOK (.bytes [255]) = "gbk".data := by
  have h := (detect_encoding_spec c8chardet c8decodeOK).2 [255] (Or.inl rfl)
  rw [h]
  decide

/-! ## path_utils.copy_path -/

/-- The exit-code table ROBOCOPY_ERROR_BOOK of path_utils.py (lines
24-35), verbatim. -/
def ROBOCOPY_ERROR_BOOK : List (Nat × List Char) := [
  (0, "No files were copied. No failure was met. No files were mismatched. The files already exist in the destination directory; so the copy operation was skipped.".data),
  (1, "All files were copied successfully.".data),
  (2, "There are some additional files in the destination directory that aren\x27t present in the source directory. No files were copied.".data),
  (3, "Some files were copied. Additional files were present. No failure was met.".data),
  (4, "Some Mismatched files or directories were detected. Examine the output log. Housekeeping might be required.".data),
  (5, "Some files were copied. Some files were mismatched. No failure was met.".data),
  (6, "Additional files and mismatched files exist. No files were copied and no failures were met. Which means that the files already exist in the destination directory.".data),
  (7, "Files were copied, a file mismatch was present, and additional files were present.".data),
  (8, "Some files or directories could not be copied (copy errors occurred and the retry limit was exceeded). Check these errors further.".data),
  (16, "Serious error. Robocopy did not copy any files. Either a usage error or an error due to insufficient access privileges on the source or destination directories.".data)]

/-- Python ROBOCOPY_ERROR_BOOK.get(code, empty string) of line 155. -/
def robocopyExplain (c : Nat) : List Char :=
  (ROBOCOPY_ERROR_BOOK.lookup c).getD []

/-- The IOError message of line 156, Python percent-formatting of the code
and its explanation. -/
def robocopyMsg (c : Nat) : List Char :=
  "Robocopy copy folder error: code ".data ++ natStr c ++ " (".data ++
    robocopyExplain c ++ ")".data

/-- A filesystem effect performed by copy_path, in program order. -/
inductive FsAction
  | rmTree (p : List Char)
  | removeFile (p : List Char)
  | makedirs (p : List Char)
  | copyFile (src dst : List Char)
  | robocopy (src dst : List Char)
  | logInfo (msg : List Char)
deriving DecidableEq

/-- The view of the filesystem and of the OS path helpers that copy_path
consults: os.path.exists, os.path.isdir, os.path.isfile, os.path.dirname
and os.path.join, all as oracles. -/
structure FsView where
  pathExists : List Char → Bool
  isdir : List Char → Bool
  isfile : List Char → Bool
  dirname : List Char → List Char
  joinPath : List Char → List Char → List Char

/-- Lines 113-115 of path_utils.py: a destination holding no separator at
all is reinterpreted as a bare name inside the parent directory of the
source. -/
def copyDstArg (fs : FsView) (src dst : List Char) : List Char :=
  if ('/' ∉ dst) ∧ ('\\' ∉ dst) then fs.joinPath (fs.dirname src) dst else dst

/-- The deletion block of lines 129-136: under force an existing
destination is removed first, recursively for a directory. -/
def copyDelActions (fs : FsView) (force : Bool) (d : List Char) :
    List FsAction :=
  if force = true ∧ fs.pathExists d = true then
    (if fs.isdir d = true then [.rmTree d] else [.removeFile d])
  else []

/-- Lines 138-141: the parent directory of the destination is created when
missing. -/
def copyMkActions (fs : FsView) (d : List Char) : List FsAction :=
  if fs.pathExists (fs.dirname d) = false then [.makedirs (fs.dirname d)]
  else []

/-- The body of path_utils.copy_path (lines 118-163) after normalization,
acting on the normalized source s and destination d.  Precondition
violations raise IOError before any filesystem effect (error value: the
message and the effects performed before the raise, none here).  A file
source is copied directly; a directory source invokes robocopy, whose exit
code roboCode is interpreted as in lines 148-161: 1 is success, 0 is
success with an informational log, anything else raises IOError with the
message of robocopyMsg after the robocopy invocation already ran. -/
def copyGo (fs : FsView) (roboCode : Nat) (force : Bool)
    (s d : List Char) :
    Except (List Char × List FsAction) (List FsAction × List Char) :=
  if s = d then
    .error ("The source path and destination path are the same: ".data ++ s, [])
  else if force = false ∧ fs.pathExists d = true then
    .error ("Cannot copy over an existing path: \x27".data ++ d ++ "\x27".data, [])
  else if fs.isfile s = true then
    .ok (copyDelActions fs force d ++ copyMkActions fs d ++ [.copyFile s d], d)
  else if roboCode = 1 then
    .ok (copyDelActions fs force d ++ copyMkActions fs d ++ [.robocopy s d], d)
  else if roboCode = 0 then
    .ok (copyDelActions fs force d ++ copyMkActions fs d ++
      [.robocopy s d, .logInfo "Destination folder already exists".data], d)
  else
    .error (robocopyMsg roboCode,
      copyDelActions fs force d ++ copyMkActions fs d ++ [.robocopy s d])

/-- path_utils.copy_path (lines 89-163).  The Python 2 byte-encoding round
trip of lines 98-111 is the identity on the abstract text values used
here; then the bare-name destination completion and the normalization of
both paths (lines 113-119) feed the main body. -/
def copy_path (fs : FsView) (roboCode : Nat) (src dst : List Char)
    (force : Bool) :
    Except (List Char × List FsAction) (List FsAction × List Char) :=
  copyGo fs roboCode force (norm_path src) (norm_path (copyDstArg fs src dst))

/-- C4: with the preconditions passed and a directory source, robocopy
exit code 1 yields a normal return carrying the normalized destination;
exit code 0 also returns normally but logs the informational message as
its last effect; every other exit code raises an IOError whose message is
robocopyMsg, and whenever the code is in the table that message contains
the documented explanation as a substring. -/
theorem copy_path_robocopy_codes (fs : FsView) (roboCode : Nat)
    (src dst : List Char) (force : Bool)
    (hne : norm_path src ≠ norm_path (copyDstArg fs src dst))
    (hnex : ¬ (force = false ∧
      fs.pathExists (norm_path (copyDstArg fs src dst)) = true))
    (hdir : fs.isfile (norm_path src) = false) :
    (roboCode = 1 → ∃ acts, copy_path fs roboCode src dst force =
      .ok (acts, norm_path (copyDstArg fs src dst))) ∧
    (roboCode = 0 → ∃ acts, copy_path fs roboCode src dst force =
      .ok (acts, norm_path (copyDstArg fs src dst)) ∧
      acts.getLast? = some (.logInfo "Destination folder already exists".data)) ∧
    (roboCode ≠ 0 → roboCode ≠ 1 →
      (∃ acts, copy_path fs roboCode src dst force =
        .error (robocopyMsg roboCode, acts)) ∧
      (∀ desc, ROBOCOPY_ERROR_BOOK.lookup roboCode = some desc →
        ∃ u v, robocopyMsg roboCode = u ++ desc ++ v)) := by
  unfold copy_path copyGo
  rw [if_neg hne, if_neg hnex,
    if_neg (by rw [hdir]; exact Bool.false_ne_true)]
  refine ⟨?_, ?_, ?_⟩
  · intro h1
    rw [if_pos h1]
    exact ⟨_, rfl⟩
  · intro h0
    rw [if_neg (by rw [h0]; exact zero_ne_one), if_pos h0]
    refine ⟨_, rfl, ?_⟩
    rw [List.getLast?_append, List.getLast?_append]
    simp
  · intro h0 h1
    rw [if_neg h1, if_neg h0]
    refine ⟨⟨_, rfl⟩, ?_⟩
    intro desc hdesc
    refine ⟨"Robocopy copy folder error: code ".data ++ natStr roboCode ++
      " (".data, ")".data, ?_⟩
    unfold robocopyMsg robocopyExplain
    rw [hdesc]
    simp [List.append_assoc]

/-- Filesystem view for the C4 witness: nothing exists anywhere, so the
source is a directory and the destination is fresh. -/
def c4fs : FsView :=
  ⟨fun _ => false, fun _ => false, fun _ => false, fun _ => [],
   fun a b => a ++ '/' :: b⟩

/-- Witness for C4 at exit code 8: copy_path raises the IOError whose
message embeds the documented explanation of code 8. -/
theorem copy_path_robocopy_codes_witness :
    (∃ acts, copy_path c4fs 8 "/a".data "/b".data true =
      .error (robocopyMsg 8, acts)) ∧
    (∃ u v, robocopyMsg 8 = u ++
      "Some files or directories could not be copied (copy errors occurred and the retry limit was exceeded). Check these errors further.".data
      ++ v) := by
  have h := copy_path_robocopy_codes c4fs 8 "/a".data "/b".data true
    (by decide) (by decide) (by decide)
  have h3 := h.2.2 (by decide) (by decide)
  exact ⟨h3.1, h3.2 _ (by decide)⟩

/-- C5: copy_path fails with an IOError when source and destination
normalize to the same path, and, with force off, when the destination
already exists; in both cases the error is raised before any filesystem
effect, so the destination is untouched (empty effect list). -/
theorem copy_path_preconditions (fs : FsView) (roboCode : Nat)
    (src dst : List Char) (force : Bool) :
    (norm_path src = norm_path (copyDstArg fs src dst) →
      copy_path fs roboCode src dst force =
        .error ("The source path and destination path are the same: ".data ++
          norm_path src, [])) ∧
    (norm_path src ≠ norm_path (copyDstArg fs src dst) → force = false →
      fs.pathExists (norm_path (copyDstArg fs src dst)) = true →
      copy_path fs roboCode src dst force =
        .error ("Cannot copy over an existing path: \x27".data ++
          norm_path (copyDstArg fs src dst) ++ "\x27".data, [])) := by
  constructor
  · intro heq
    unfold copy_path copyGo
    rw [if_pos heq]
  · intro hne hforce hex
    unfold copy_path copyGo
    rw [if_neg hne, if_pos ⟨hforce, hex⟩]

/-- Filesystem view for the C5 witness: only the destination path exists. -/
def c5fs : FsView :=
  ⟨fun p => p == "/b".data, fun _ => false, fun _ => false, fun _ => [],
   fun a b => a ++ '/' :: b⟩

/-- Witness for C5: an existing destination with force off raises the
IOError with no effect performed, and identical source and destination
raise the other IOError, also effect-free. -/
theorem copy_path_preconditions_witness :
    copy_path c5fs 1 "/a".data "/b".data false =
      .error ("Cannot copy over an existing path: \x27".data ++
        "/b".data ++ "\x27".data, []) ∧
    copy_path c5fs 1 "/a".data "/a".data true =
      .error ("The source path and destination path are the same: ".data ++
        "/a".data, []) := by
  constructor
  · have h := (copy_path_preconditions c5fs 1 "/a".data "/b".data false).2
      (by decide) rfl (by decide)
    rw [h]
    rfl
  · have h := (copy_path_preconditions c5fs 1 "/a".data "/a".data true).1
      (by decide)
    rw [h]
    rfl

/-! ## path_utils.path_begin_with_ip -/

/-- Inclusive character-range test, the regex character class. -/
def charBetween (lo hi c : Char) : Bool :=
  decide (lo.toNat ≤ c.toNat) && decide (c.toNat ≤ hi.toNat)

/-- First octet alternative of the verbose regex of path_utils.py lines
211-227: 250-255. -/
def octAlt1 : List Char → List (List Char × List Char)
  | a :: b :: c :: r =>
    if a = '2' ∧ b = '5' ∧ charBetween '0' '5' c = true then [([a, b, c], r)]
    else []
  | _ => []

/-- Second octet alternative: 200-249. -/
def octAlt2 : List Char → List (List Char × List Char)
  | a :: b :: c :: r =>
    if a = '2' ∧ charBetween '0' '4' b = true ∧ charBetween '0' '9' c = true then
      [([a, b, c], r)]
    else []
  | _ => []

/-- Third octet alternative: 100-199. -/
def octAlt3 : List Char → List (List Char × List Char)
  | a :: b :: c :: r =>
    if a = '1' ∧ charBetween '0' '9' b = true ∧ charBetween '0' '9' c = true then
      [([a, b, c], r)]
    else []
  | _ => []

/-- Fourth octet alternative: 10-99. -/
def octAlt4 : List Char → List (List Char × List Char)
  | a :: b :: r =>
    if charBetween '1' '9' a = true ∧ charBetween '0' '9' b = true then
      [([a, b], r)]
    else []
  | _ => []

/-- Fifth octet alternative: 0-9. -/
def octAlt5 : List Char → List (List Char × List Char)
  | a :: r => if charBetween '0' '9' a = true then [([a], r)] else []
  | _ => []

/-- All ways one octet of the regex can match a front of the input, in
alternation (priority) order, each as consumed text and remaining input. -/
def octAlts (s : List Char) : List (List Char × List Char) :=
  octAlt1 s ++ octAlt2 s ++ octAlt3 s ++ octAlt4 s ++ octAlt5 s

/-- Continuation after one octet candidate: the remaining input must
start with the literal dot, and the rest must match the continuation k;
the consumed parts are reassembled. -/
def dotStep (k : List Char → Option (List Char))
    (p : List Char × List Char) : Option (List Char) :=
  match p.2 with
  | c0 :: r2 =>
    if c0 = '.' then (k r2).map fun t => p.1 ++ '.' :: t else none
  | [] => none

/-- Backtracking matcher for n dot-separated octets, faithful to the
regex engine: alternatives are tried in priority order at each position
and the first complete match wins.  Returns the consumed text. -/
def matchOcts : Nat → List Char → Option (List Char)
  | 0, _ => none
  | 1, s => (octAlts s).head?.map Prod.fst
  | n + 2, s => (octAlts s).findSome? (dotStep (matchOcts (n + 1)))

/-- path_utils.path_begin_with_ip (lines 192-229): empty input short
circuits; the path is normalized; coding_transition to unicode is the
identity on the abstract text values used here (the source encoding of a
decoded value is detected as unicode, equal to the target, so the text is
returned unchanged); the anchored verbose regex then matches a leading
double slash followed by four dot-separated octets, and the matched
prefix, or the empty string, is returned. -/
def path_begin_with_ip (p : List Char) : List Char :=
  if p = [] then []
  else if startsWith2 '/' '/' (norm_path p) then
    match matchOcts 4 ((norm_path p).drop 2) with
    | some t => '/' :: '/' :: t
    | none => []
  else []

example : path_begin_with_ip "//192.168.1.10/shared/x".data = "//192.168.1.10".data := by decide
example : path_begin_with_ip "/local/path".data = "".data := by decide
example : path_begin_with_ip "//256.1.1.1/x".data = "".data := by decide
example : path_begin_with_ip "//01.2.3.4/x".data = "".data := by decide
example : path_begin_with_ip "//100.200.255.0".data = "//100.200.255.0".data := by decide
example : path_begin_with_ip "\\\\10.1.2.3\\share".data = "//10.1.2.3".data := by decide
example : path_begin_with_ip "//1.2.3.456/x".data = "//1.2.3.45".data := by decide

/-- Decimal value of a digit string, most significant digit first. -/
def octValue (l : List Char) : Nat :=
  l.foldl (fun acc c => 10 * acc + (c.toNat - 48)) 0

/-- Modelled from the wording of claim C9: a decimal octet written with
one or two digits for the values 0-99 and three digits for 100-255, no
other leading-zero forms. -/
def specOctet (l : List Char) : Bool :=
  (l.all fun c => charBetween '0' '9' c) &&
  decide (octValue l ≤ 255) &&
  (decide (l.length = 1) ||
   (decide (l.length = 2) && decide (10 ≤ octValue l)) ||
   (decide (l.length = 3) && decide (100 ≤ octValue l)))

theorem char_eq_of_toNat (a b : Char) (h : a.toNat = b.toNat) : a = b := by
  apply Char.ext
  apply UInt32.ext
  exact h

theorem charBetween_iff (lo hi c : Char) :
    charBetween lo hi c = true ↔ lo.toNat ≤ c.toNat ∧ c.toNat ≤ hi.toNat := by
  simp [charBetween]

theorem toNat_c0 : ('0' : Char).toNat = 48 := rfl
theorem toNat_c1 : ('1' : Char).toNat = 49 := rfl
theorem toNat_c2 : ('2' : Char).toNat = 50 := rfl
theorem toNat_c4 : ('4' : Char).toNat = 52 := rfl
theorem toNat_c5 : ('5' : Char).toNat = 53 := rfl
theorem toNat_c9 : ('9' : Char).toNat = 57 := rfl

theorem octValue_one (a : Char) : octValue [a] = a.toNat - 48 := by
  simp [octValue]

theorem octValue_two (a b : Char) :
    octValue [a, b] = 10 * (a.toNat - 48) + (b.toNat - 48) := by
  simp [octValue]

theorem octValue_three (a b c : Char) :
    octValue [a, b, c] =
      10 * (10 * (a.toNat - 48) + (b.toNat - 48)) + (c.toNat - 48) := by
  simp [octValue]

theorem specOctet_one (a : Char) :
    specOctet [a] = true ↔ 48 ≤ a.toNat ∧ a.toNat ≤ 57 := by
  simp [specOctet, charBetween, octValue, toNat_c0, toNat_c9]
  omega

theorem specOctet_two (a b : Char) :
    specOctet [a, b] = true ↔
      48 ≤ a.toNat ∧ a.toNat ≤ 57 ∧ 48 ≤ b.toNat ∧ b.toNat ≤ 57 ∧
      10 ≤ 10 * (a.toNat - 48) + (b.toNat - 48) := by
  simp [specOctet, charBetween, octValue, toNat_c0, toNat_c9]
  omega

theorem specOctet_three (a b c : Char) :
    specOctet [a, b, c] = true ↔
      48 ≤ a.toNat ∧ a.toNat ≤ 57 ∧ 48 ≤ b.toNat ∧ b.toNat ≤ 57 ∧
      48 ≤ c.toNat ∧ c.toNat ≤ 57 ∧
      100 ≤ 10 * (10 * (a.toNat - 48) + (b.toNat - 48)) + (c.toNat - 48) ∧
      10 * (10 * (a.toNat - 48) + (b.toNat - 48)) + (c.toNat - 48) ≤ 255 := by
  simp [specOctet, charBetween, octValue, toNat_c0, toNat_c9]
  omega

theorem specOctet_length (l : List Char) (h : specOctet l = true) :
    l.length = 1 ∨ l.length = 2 ∨ l.length = 3 := by
  simp only [specOctet, Bool.and_eq_true, Bool.or_eq_true, decide_eq_true_eq] at h
  rcases h.2 with (h1 | h1) | h1
  · exact Or.inl h1
  · exact Or.inr (Or.inl h1.1)
  · exact Or.inr (Or.inr h1.1)

theorem octAlt1_sound (s c r : List Char) (h : (c, r) ∈ octAlt1 s) :
    specOctet c = true ∧ s = c ++ r := by
  rcases s with _ | ⟨x, _ | ⟨y, _ | ⟨z, t⟩⟩⟩
  · simp [octAlt1] at h
  · simp [octAlt1] at h
  · simp [octAlt1] at h
  · simp only [octAlt1] at h
    split at h
    case isTrue hcond =>
      obtain ⟨h1, h2, h3⟩ := hcond
      simp only [List.mem_singleton, Prod.mk.injEq] at h
      obtain ⟨hc, hr⟩ := h
      subst hc
      subst hr
      subst h1
      subst h2
      refine ⟨?_, rfl⟩
      rw [charBetween_iff, toNat_c0, toNat_c5] at h3
      rw [specOctet_three, toNat_c2, toNat_c5]
      omega
    case isFalse => simp at h

theorem octAlt2_sound (s c r : List Char) (h : (c, r) ∈ octAlt2 s) :
    specOctet c = true ∧ s = c ++ r := by
  rcases s with _ | ⟨x, _ | ⟨y, _ | ⟨z, t⟩⟩⟩
  · simp [octAlt2] at h
  · simp [octAlt2] at h
  · simp [octAlt2] at h
  · simp only [octAlt2] at h
    split at h
    case isTrue hcond =>
      obtain ⟨h1, h2, h3⟩ := hcond
      simp only [List.mem_singleton, Prod.mk.injEq] at h
      obtain ⟨hc, hr⟩ := h
      subst hc
      subst hr
      subst h1
      refine ⟨?_, rfl⟩
      rw [charBetween_iff, toNat_c0, toNat_c4] at h2
      rw [charBetween_iff, toNat_c0, toNat_c9] at h3
      rw [specOctet_three, toNat_c2]
      omega
    case isFalse => simp at h

theorem octAlt3_sound (s c r : List Char) (h : (c, r) ∈ octAlt3 s) :
    specOctet c = true ∧ s = c ++ r := by
  rcases s with _ | ⟨x, _ | ⟨y, _ | ⟨z, t⟩⟩⟩
  · simp [octAlt3] at h
  · simp [octAlt3] at h
  · simp [octAlt3] at h
  · simp only [octAlt3] at h
    split at h
    case isTrue hcond =>
      obtain ⟨h1, h2, h3⟩ := hcond
      simp only [List.mem_singleton, Prod.mk.injEq] at h
      obtain ⟨hc, hr⟩ := h
      subst hc
      subst hr
      subst h1
      refine ⟨?_, rfl⟩
      rw [charBetween_iff, toNat_c0, toNat_c9] at h2
      rw [charBetween_iff, toNat_c0, toNat_c9] at h3
      rw [specOctet_three, toNat_c1]
      omega
    case isFalse => simp at h

theorem octAlt4_sound (s c r : List Char) (h : (c, r) ∈ octAlt4 s) :
    specOctet c = true ∧ s = c ++ r := by
  rcases s with _ | ⟨x, _ | ⟨y, t⟩⟩
  · simp [octAlt4] at h
  · simp [octAlt4] at h
  · simp only [octAlt4] at h
    split at h
    case isTrue hcond =>
      obtain ⟨h1, h2⟩ := hcond
      simp only [List.mem_singleton, Prod.mk.injEq] at h
      obtain ⟨hc, hr⟩ := h
      subst hc
      subst hr
      refine ⟨?_, rfl⟩
      rw [charBetween_iff, toNat_c1, toNat_c9] at h1
      rw [charBetween_iff, toNat_c0, toNat_c9] at h2
      rw [specOctet_two]
      omega
    case isFalse => simp at h

theorem octAlt5_sound (s c r : List Char) (h : (c, r) ∈ octAlt5 s) :
    specOctet c = true ∧ s = c ++ r := by
  rcases s with _ | ⟨x, t⟩
  · simp [octAlt5] at h
  · simp only [octAlt5] at h
    split at h
    case isTrue hcond =>
      simp only [List.mem_singleton, Prod.mk.injEq] at h
      obtain ⟨hc, hr⟩ := h
      subst hc
      subst hr
      refine ⟨?_, rfl⟩
      rw [charBetween_iff, toNat_c0, toNat_c9] at hcond
      rw [specOctet_one]
      omega
    case isFalse => simp at h

theorem octAlts_sound (s c r : List Char) (h : (c, r) ∈ octAlts s) :
    specOctet c = true ∧ s = c ++ r := by
  simp only [octAlts, List.mem_append] at h
  rcases h with ((((h | h) | h) | h) | h)
  · exact octAlt1_sound _ _ _ h
  · exact octAlt2_sound _ _ _ h
  · exact octAlt3_sound _ _ _ h
  · exact octAlt4_sound _ _ _ h
  · exact octAlt5_sound _ _ _ h

theorem octAlts_complete (c r : List Char) (h : specOctet c = true) :
    (c, r) ∈ octAlts (c ++ r) := by
  have hlen := specOctet_length c h
  rcases c with _ | ⟨a, _ | ⟨b, _ | ⟨c3, _ | ⟨d, t⟩⟩⟩⟩
  · rcases hlen with h1 | h1 | h1 <;> exact absurd h1 (by decide)
  · have h1 := (specOctet_one a).mp h
    have hcb : charBetween '0' '9' a = true := by
      rw [charBetween_iff, toNat_c0, toNat_c9]
      omega
    simp only [octAlts, List.mem_append]
    refine Or.inr ?_
    simp [octAlt5, hcb]
  · have h2 := (specOctet_two a b).mp h
    have hcb1 : charBetween '1' '9' a = true := by
      rw [charBetween_iff, toNat_c1, toNat_c9]
      omega
    have hcb2 : charBetween '0' '9' b = true := by
      rw [charBetween_iff, toNat_c0, toNat_c9]
      omega
    simp only [octAlts, List.mem_append]
    refine Or.inl (Or.inr ?_)
    simp [octAlt4, hcb1, hcb2]
  · have h3 := (specOctet_three a b c3).mp h
    have ha : a.toNat = 49 ∨ a.toNat = 50 := by omega
    rcases ha with ha | ha
    · have ha' : a = '1' := char_eq_of_toNat a '1' (by rw [ha]; rfl)
      subst ha'
      have hcb2 : charBetween '0' '9' b = true := by
        rw [charBetween_iff, toNat_c0, toNat_c9]
        omega
      have hcb3 : charBetween '0' '9' c3 = true := by
        rw [charBetween_iff, toNat_c0, toNat_c9]
        omega
      simp only [octAlts, List.mem_append]
      refine Or.inl (Or.inl (Or.inr ?_))
      simp [octAlt3, hcb2, hcb3]
    · have ha' : a = '2' := char_eq_of_toNat a '2' (by rw [ha]; rfl)
      subst ha'
      rw [toNat_c2] at h3
      by_cases hb4 : b.toNat ≤ 52
      · have hcb2 : charBetween '0' '4' b = true := by
          rw [charBetween_iff, toNat_c0, toNat_c4]
          omega
        have hcb3 : charBetween '0' '9' c3 = true := by
          rw [charBetween_iff, toNat_c0, toNat_c9]
          omega
        simp only [octAlts, List.mem_append]
        refine Or.inl (Or.inl (Or.inl (Or.inr ?_)))
        simp [octAlt2, hcb2, hcb3]
      · have hb : b.toNat = 53 := by omega
        have hb' : b = '5' := char_eq_of_toNat b '5' (by rw [hb]; rfl)
        subst hb'
        have hc3 : c3.toNat ≤ 53 := by
          rw [toNat_c5] at h3
          omega
        have hcb3 : charBetween '0' '5' c3 = true := by
          rw [charBetween_iff, toNat_c0, toNat_c5]
          omega
        simp only [octAlts, List.mem_append]
        refine Or.inl (Or.inl (Or.inl (Or.inl ?_)))
        simp [octAlt1, hcb3]
  · rcases hlen with h1 | h1 | h1 <;>
      (simp only [List.length_cons] at h1; omega)

/-- A text consisting of n valid dot-separated octets. -/
inductive Octs : Nat → List Char → Prop
  | one (c : List Char) : specOctet c = true → Octs 1 c
  | more (c : List Char) (n : Nat) (t : List Char) :
      specOctet c = true → Octs (n + 1) t → Octs (n + 2) (c ++ '.' :: t)

theorem findSome?_isSome_of_mem {α β : Type} (l : List α) (f : α → Option β)
    (a : α) (ha : a ∈ l) (hy : (f a).isSome = true) :
    (l.findSome? f).isSome = true := by
  cases hfs : l.findSome? f with
  | some b => rfl
  | none =>
    have hnone := List.findSome?_eq_none_iff.mp hfs a ha
    rw [hnone] at hy
    exact Bool.noConfusion hy

theorem dotStep_eq_some (k : List Char → Option (List Char))
    (p : List Char × List Char) (t : List Char) :
    dotStep k p = some t ↔
      ∃ r2 t2, p.2 = '.' :: r2 ∧ k r2 = some t2 ∧ t = p.1 ++ '.' :: t2 := by
  rcases p with ⟨p1, _ | ⟨c0, r2⟩⟩
  · simp [dotStep]
  · simp only [dotStep]
    by_cases hc0 : c0 = '.'
    · subst hc0
      rw [if_pos rfl]
      constructor
      · intro h
        cases hk : k r2 with
        | none => rw [hk] at h; exact Option.noConfusion h
        | some t2 =>
          rw [hk] at h
          simp only [Option.map_some', Option.some.injEq] at h
          exact ⟨r2, t2, rfl, hk, h.symm⟩
      · rintro ⟨r2x, t2, hr2, hk, rfl⟩
        injection hr2 with _ hr
        subst hr
        rw [hk]
        rfl
    · rw [if_neg hc0]
      constructor
      · intro h
        exact Option.noConfusion h
      · rintro ⟨r2x, t2, hr2, hk, rfl⟩
        injection hr2 with hc0x hr
        exact absurd hc0x hc0

theorem octs_one_spec (t : List Char) (h : Octs 1 t) : specOctet t = true := by
  cases h with
  | one c hc => exact hc

theorem matchOcts_sound : ∀ (n : Nat) (s t : List Char),
    matchOcts (n + 1) s = some t → Octs (n + 1) t ∧ ∃ rest, s = t ++ rest := by
  intro n
  induction n with
  | zero =>
    intro s t h
    simp only [matchOcts] at h
    cases hh : (octAlts s).head? with
    | none => rw [hh] at h; exact Option.noConfusion h
    | some p =>
      rw [hh] at h
      simp only [Option.map_some', Option.some.injEq] at h
      subst h
      have hmem : p ∈ octAlts s := List.mem_of_mem_head? (by rw [hh]; rfl)
      have hs := octAlts_sound s p.1 p.2 hmem
      exact ⟨Octs.one _ hs.1, p.2, hs.2⟩
  | succ m ih =>
    intro s t h
    simp only [matchOcts] at h
    obtain ⟨l1, p, l2, hsplit, hpf, hprev⟩ := List.findSome?_eq_some_iff.mp h
    have hpmem : p ∈ octAlts s := by
      rw [hsplit]
      exact List.mem_append_right _ (List.mem_cons_self _ _)
    obtain ⟨r2, t2, hp2, hk, rfl⟩ := (dotStep_eq_some (matchOcts (m + 1)) p t).mp hpf
    obtain ⟨ho2, rest, hrest⟩ := ih r2 t2 hk
    have hso := octAlts_sound s p.1 p.2 hpmem
    refine ⟨Octs.more p.1 m t2 hso.1 ho2, rest, ?_⟩
    rw [hso.2, hp2, hrest]
    simp

theorem matchOcts_complete : ∀ (n : Nat) (t rest : List Char),
    Octs (n + 1) t → (matchOcts (n + 1) (t ++ rest)).isSome = true := by
  intro n
  induction n with
  | zero =>
    intro t rest h
    have hc := octs_one_spec t h
    have hm := octAlts_complete t rest hc
    simp only [matchOcts]
    cases hsplit : octAlts (t ++ rest) with
    | nil => rw [hsplit] at hm; exact absurd hm (List.not_mem_nil _)
    | cons q qs => simp [hsplit]
  | succ m ih =>
    intro t rest h
    cases h with
    | more c n t2 hc ht2 =>
      have hassoc : (c ++ '.' :: t2) ++ rest = c ++ ('.' :: (t2 ++ rest)) := by
        simp
      rw [hassoc]
      simp only [matchOcts]
      apply findSome?_isSome_of_mem _ _ (c, '.' :: (t2 ++ rest))
        (octAlts_complete c ('.' :: (t2 ++ rest)) hc)
      obtain ⟨u, hu⟩ := Option.isSome_iff_exists.mp (ih t2 rest ht2)
      have hd : dotStep (matchOcts (m + 1)) (c, '.' :: (t2 ++ rest)) =
          some (c ++ '.' :: u) :=
        (dotStep_eq_some _ _ _).mpr ⟨t2 ++ rest, u, rfl, hu, rfl⟩
      rw [hd]
      rfl

/-- The dotted-quad text of four octets. -/
def ipJoin (a b c d : List Char) : List Char :=
  a ++ ('.' :: (b ++ ('.' :: (c ++ ('.' :: d)))))

/-- Modelled from the wording of claim C9: the text begins with a double
slash followed by four dot-separated valid decimal octets. -/
def HasIPStart (q : List Char) : Prop :=
  ∃ a b c d rest, specOctet a = true ∧ specOctet b = true ∧
    specOctet c = true ∧ specOctet d = true ∧
    q = '/' :: '/' :: (ipJoin a b c d ++ rest)

theorem octs_four_iff (t : List Char) :
    Octs 4 t ↔ ∃ a b c d, specOctet a = true ∧ specOctet b = true ∧
      specOctet c = true ∧ specOctet d = true ∧ t = ipJoin a b c d := by
  constructor
  · intro h
    cases h with
    | more a n1 t1 ha h1 =>
      cases h1 with
      | more b n2 t2 hb h2 =>
        cases h2 with
        | more c n3 t3 hc h3 =>
          cases h3 with
          | one d hd => exact ⟨a, b, c, t3, ha, hb, hc, hd, rfl⟩
  · rintro ⟨a, b, c, d, ha, hb, hc, hd, rfl⟩
    exact Octs.more a 2 _ ha (Octs.more b 1 _ hb (Octs.more c 0 _ hc (Octs.one d hd)))

/-- C9: for every input, the result of path_begin_with_ip is non-empty
exactly when the input is non-empty and its normalized form starts with a
double slash followed by four dot-separated valid decimal octets (0-255,
one or two digits for 0-99, three digits for 100-255, no other
leading-zero forms); a non-empty result is itself such an exact prefix of
the normalized path; and the two examples of the spec hold. -/
theorem path_begin_with_ip_spec (p : List Char) :
    ((path_begin_with_ip p ≠ [] ↔ p ≠ [] ∧ HasIPStart (norm_path p)) ∧
     (path_begin_with_ip p ≠ [] →
       ∃ a b c d rest, specOctet a = true ∧ specOctet b = true ∧
         specOctet c = true ∧ specOctet d = true ∧
         path_begin_with_ip p = '/' :: '/' :: ipJoin a b c d ∧
         norm_path p = path_begin_with_ip p ++ rest)) ∧
    path_begin_with_ip "//192.168.1.10/shared/x".data = "//192.168.1.10".data ∧
    path_begin_with_ip "/local/path".data = [] := by
  refine ⟨?_, by decide, by decide⟩
  by_cases hp : p = []
  · subst hp
    refine ⟨iff_of_false (by simp [path_begin_with_ip]) (by simp), ?_⟩
    intro h
    exact absurd rfl h
  · by_cases hsw : startsWith2 '/' '/' (norm_path p) = true
    · obtain ⟨s, hq⟩ : ∃ s, norm_path p = '/' :: '/' :: s := by
        rcases hnp : norm_path p with _ | ⟨x, _ | ⟨y, tl⟩⟩
        · rw [hnp] at hsw
          exact absurd hsw Bool.false_ne_true
        · rw [hnp] at hsw
          exact absurd hsw Bool.false_ne_true
        · rw [hnp] at hsw
          simp only [startsWith2, Bool.and_eq_true, beq_iff_eq] at hsw
          exact ⟨tl, by rw [hsw.1, hsw.2]⟩
      have hres : path_begin_with_ip p =
          (match matchOcts 4 s with
           | some t => '/' :: '/' :: t
           | none => []) := by
        unfold path_begin_with_ip
        rw [if_neg hp, if_pos hsw, hq]
        rfl
      cases hmo : matchOcts 4 s with
      | some t =>
        rw [hmo] at hres
        obtain ⟨hocts, rest, hsrest⟩ := matchOcts_sound 3 s t hmo
        obtain ⟨a, b, c, d, ha, hb, hc, hd, ht⟩ := (octs_four_iff t).mp hocts
        constructor
        · refine iff_of_true (by rw [hres]; simp) ?_
          exact ⟨hp, a, b, c, d, rest, ha, hb, hc, hd,
            by rw [hq, hsrest, ht]⟩
        · intro _
          refine ⟨a, b, c, d, rest, ha, hb, hc, hd, by rw [hres, ht], ?_⟩
          rw [hres, hq, hsrest, ht]
          simp
      | none =>
        rw [hmo] at hres
        constructor
        · apply iff_of_false
          · rw [hres]
            simp
          · rintro ⟨-, a, b, c, d, rest, ha, hb, hc, hd, hdec⟩
            rw [hq] at hdec
            injection hdec with _ hdec1
            injection hdec1 with _ hdec2
            have hOcts : Octs 4 (ipJoin a b c d) :=
              (octs_four_iff _).mpr ⟨a, b, c, d, ha, hb, hc, hd, rfl⟩
            have hsome := matchOcts_complete 3 (ipJoin a b c d) rest hOcts
            rw [← hdec2, hmo] at hsome
            exact Bool.noConfusion hsome
        · intro hne
          exact absurd hres hne
    · have hres : path_begin_with_ip p = [] := by
        unfold path_begin_with_ip
        rw [if_neg hp, if_neg hsw]
      constructor
      · apply iff_of_false
        · rw [hres]
          simp
        · rintro ⟨-, a, b, c, d, rest, -, -, -, -, hdec⟩
          rw [hdec] at hsw
          exact hsw (by simp [startsWith2])
      · intro hne
        exact absurd hres hne

/-- Witness for C9 at a concrete UNC path: the matched address is returned
and is an exact prefix of the normalized path. -/
theorem path_begin_with_ip_spec_witness :
    path_begin_with_ip "//10.0.0.1/x".data ≠ [] ∧
    (∃ a b c d rest, specOctet a = true ∧ specOctet b = true ∧
      specOctet c = true ∧ specOctet d = true ∧
      path_begin_with_ip "//10.0.0.1/x".data = '/' :: '/' :: ipJoin a b c d ∧
      norm_path "//10.0.0.1/x".data = path_begin_with_ip "//10.0.0.1/x".data ++ rest) := by
  have h := path_begin_with_ip_spec "//10.0.0.1/x".data
  have hne : path_begin_with_ip "//10.0.0.1/x".data ≠ [] := by decide
  exact ⟨hne, h.1.2 hne⟩

end PyUtils
